import Mathlib

/-!
Verification development for the Qc_report relay (src/app.py and
src/server.py).  The Python code is shallowly embedded: pure string
transforms become Lean functions on `List Char` / `String`, the JSON
values handled by `json.loads` become the inductive `JVal`, and the
HTTP handler bodies become total functions from the request data and
the (mocked) upstream outcome to the response that is written back.
-/

/-- The backtick character, written via its code point. -/
def btk : Char := Char.ofNat 96

/-- Characters stripped by Python `str.strip()` (the ASCII whitespace set:
space, tab, newline, carriage return, vertical tab, form feed). -/
def isStripWs (c : Char) : Bool :=
  c = ' ' || c = '\t' || c = '\n' || c = '\r' || c = Char.ofNat 11 || c = Char.ofNat 12

/-- One pass of Python `s.replace(pat, "")`: scan left to right, removing each
non-overlapping occurrence of `pat`.  `skip` counts characters still to be
dropped from the occurrence found at the current position. -/
def removeAllAux (pat : List Char) : Nat → List Char → List Char
  | _, [] => []
  | 0, c :: rest =>
    if pat.isPrefixOf (c :: rest) ∧ pat ≠ [] then
      removeAllAux pat (pat.length - 1) rest
    else
      c :: removeAllAux pat 0 rest
  | s + 1, _ :: rest => removeAllAux pat s rest

/-- Python `s.replace(pat, "")` on character lists. -/
def removeAll (pat s : List Char) : List Char :=
  removeAllAux pat 0 s

/-- Python `s.strip()` (ASCII whitespace model): drop leading whitespace,
then drop trailing whitespace. -/
def stripChars (l : List Char) : List Char :=
  (((l.dropWhile isStripWs).reverse.dropWhile isStripWs)).reverse

/-- The generic markdown fence marker. -/
def fence : List Char := "```".data

/-- The JSON-flavored markdown fence marker. -/
def fenceJson : List Char := "```json".data

/-- The normalization applied to the model text in both handlers:
`text.replace("```json", "").replace("```", "").strip()`. -/
def cleanText (s : String) : String :=
  ⟨stripChars (removeAll fence (removeAll fenceJson s.data))⟩

/-- JSON values as produced by `json.loads`.  Numbers keep their source
lexeme (Python would turn them into `int`/`float`; no claim depends on
numeric semantics). -/
inductive JVal where
  | null
  | bool (b : Bool)
  | num (lexeme : String)
  | str (s : String)
  | arr (items : List JVal)
  | obj (entries : List (String × JVal))

/-- Insertion into a Python dict built during JSON object decoding:
a duplicate key keeps its original position but takes the new value. -/
def objInsert (k : String) (v : JVal) : List (String × JVal) → List (String × JVal)
  | [] => [(k, v)]
  | (k2, v2) :: rest =>
    if k2 = k then (k2, v) :: rest else (k2, v2) :: objInsert k v rest

/-- Python `dict.get` / `dict[k]` lookup on the decoded entry list. -/
def jlookup (k : String) : List (String × JVal) → Option JVal
  | [] => none
  | (k2, v) :: rest => if k2 = k then some v else jlookup k rest

/-- The row-shape policy of both handlers:
`if not isinstance(rows, list): rows = [rows]`. -/
def wrapRows (v : JVal) : JVal :=
  match v with
  | .arr xs => .arr xs
  | other => .arr [other]

/-- A `json.JSONDecodeError`: the short message and the character position;
`fmtJErr` renders `str(e)`. -/
structure JErr where
  msg : String
  pos : Nat
deriving DecidableEq

/-- JSON whitespace skipped by the decoder (space, tab, newline, return). -/
def jsonWs (c : Char) : Bool :=
  c = ' ' || c = '\t' || c = '\n' || c = '\r'

/-- Skip JSON whitespace, tracking the absolute position. -/
def skipWs : List Char → Nat → List Char × Nat
  | [], pos => ([], pos)
  | c :: rest, pos =>
    if jsonWs c then skipWs rest (pos + 1) else (c :: rest, pos)

/-- Single-character string escapes accepted by the decoder. -/
def escChar? (e : Char) : Option Char :=
  if e = '"' then some '"'
  else if e = '\\' then some '\\'
  else if e = '/' then some '/'
  else if e = 'b' then some (Char.ofNat 8)
  else if e = 'f' then some (Char.ofNat 12)
  else if e = 'n' then some '\n'
  else if e = 'r' then some '\r'
  else if e = 't' then some '\t'
  else none

/-- Hexadecimal digit value, if any. -/
def hexVal? (c : Char) : Option Nat :=
  if '0' ≤ c ∧ c ≤ '9' then some (c.toNat - 48)
  else if 'a' ≤ c ∧ c ≤ 'f' then some (c.toNat - 87)
  else if 'A' ≤ c ∧ c ≤ 'F' then some (c.toNat - 55)
  else none

/-- Decode a JSON string body (the opening quote at position `start` has
already been consumed).  Returns the decoded string, the remaining input and
the position after the closing quote. -/
def pStr (start : Nat) : List Char → Nat → List Char → Except JErr (String × List Char × Nat)
  | [], _, _ => .error ⟨"Unterminated string starting at", start⟩
  | c :: rest, pos, acc =>
    if c = '"' then .ok (⟨acc.reverse⟩, rest, pos + 1)
    else if c = '\\' then
      match rest with
      | [] => .error ⟨"Unterminated string starting at", start⟩
      | e :: rest2 =>
        if e = 'u' then
          match rest2 with
          | h1 :: h2 :: h3 :: h4 :: rest3 =>
            match hexVal? h1, hexVal? h2, hexVal? h3, hexVal? h4 with
            | some a, some b, some c2, some d =>
              pStr start rest3 (pos + 6)
                (Char.ofNat (((a * 16 + b) * 16 + c2) * 16 + d) :: acc)
            | _, _, _, _ => .error ⟨"Invalid \\uXXXX escape", pos + 1⟩
          | _ => .error ⟨"Invalid \\uXXXX escape", pos + 1⟩
        else
          match escChar? e with
          | some r => pStr start rest2 (pos + 2) (r :: acc)
          | none => .error ⟨"Invalid \\escape", pos + 1⟩
    else if c.toNat < 32 then
      .error ⟨"Invalid control character at", pos⟩
    else
      pStr start rest (pos + 1) (c :: acc)

/-- Maximal run of decimal digits. -/
def takeDigits : List Char → List Char × List Char
  | [] => ([], [])
  | c :: rest =>
    if '0' ≤ c ∧ c ≤ '9' then
      let (d, r) := takeDigits rest
      (c :: d, r)
    else ([], c :: rest)

/-- Integer part of the JSON number grammar: `0` or a nonzero digit followed
by digits. -/
def pIntPart : List Char → Option (List Char × List Char)
  | [] => none
  | c :: rest =>
    if c = '0' then some ([c], rest)
    else if '1' ≤ c ∧ c ≤ '9' then
      let (d, r) := takeDigits rest
      some (c :: d, r)
    else none

/-- Optional fraction part `.digits`; consumed only when well formed. -/
def pFracPart : List Char → List Char × List Char
  | [] => ([], [])
  | c :: rest =>
    if c = '.' then
      match takeDigits rest with
      | ([], _) => ([], c :: rest)
      | (d, r) => (c :: d, r)
    else ([], c :: rest)

/-- Optional exponent part `[eE][+-]?digits`; consumed only when well formed. -/
def pExpPart : List Char → List Char × List Char
  | [] => ([], [])
  | c :: rest =>
    if c = 'e' ∨ c = 'E' then
      match rest with
      | [] => ([], [c])
      | s :: rest2 =>
        if s = '+' ∨ s = '-' then
          match takeDigits rest2 with
          | ([], _) => ([], c :: rest)
          | (d, r) => (c :: s :: d, r)
        else
          match takeDigits rest with
          | ([], _) => ([], c :: rest)
          | (d, r) => (c :: d, r)
    else ([], c :: rest)

/-- Decode a JSON number starting at the current character, keeping the
matched lexeme. -/
def pNum (s : List Char) (pos : Nat) : Except JErr (JVal × List Char × Nat) :=
  let (sign, s1) : List Char × List Char :=
    match s with
    | c :: rest => if c = '-' then ([c], rest) else ([], s)
    | [] => ([], [])
  match pIntPart s1 with
  | none => .error ⟨"Expecting value", pos⟩
  | some (ip, s2) =>
    let (fp, s3) := pFracPart s2
    let (ep, s4) := pExpPart s3
    let lex : List Char := sign ++ ip ++ fp ++ ep
    .ok (.num ⟨lex⟩, s4, pos + lex.length)

mutual

/-- Decode one JSON value at the current position (fuel-indexed recursion;
`jparse` supplies enough fuel that exhaustion is unreachable). -/
def pVal : Nat → List Char → Nat → Except JErr (JVal × List Char × Nat)
  | 0, _, pos => .error ⟨"Expecting value", pos⟩
  | fuel + 1, s, pos =>
    match s with
    | [] => .error ⟨"Expecting value", pos⟩
    | c :: rest =>
      if c = '"' then
        match pStr pos rest (pos + 1) [] with
        | .ok (t, r, p) => .ok (.str t, r, p)
        | .error e => .error e
      else if c = Char.ofNat 123 then
        let (r1, p1) := skipWs rest (pos + 1)
        match r1 with
        | d :: r2 =>
          if d = Char.ofNat 125 then .ok (.obj [], r2, p1 + 1)
          else pObjLoop fuel r1 p1 []
        | [] => .error ⟨"Expecting property name enclosed in double quotes", p1⟩
      else if c = '[' then
        let (r1, p1) := skipWs rest (pos + 1)
        match r1 with
        | d :: r2 =>
          if d = ']' then .ok (.arr [], r2, p1 + 1)
          else pArrLoop fuel r1 p1 []
        | [] => .error ⟨"Expecting value", p1⟩
      else if c = 't' then
        if "rue".data.isPrefixOf rest then .ok (.bool true, rest.drop 3, pos + 4)
        else .error ⟨"Expecting value", pos⟩
      else if c = 'f' then
        if "alse".data.isPrefixOf rest then .ok (.bool false, rest.drop 4, pos + 5)
        else .error ⟨"Expecting value", pos⟩
      else if c = 'n' then
        if "ull".data.isPrefixOf rest then .ok (.null, rest.drop 3, pos + 4)
        else .error ⟨"Expecting value", pos⟩
      else if c = 'N' then
        if "aN".data.isPrefixOf rest then .ok (.num "NaN", rest.drop 2, pos + 3)
        else .error ⟨"Expecting value", pos⟩
      else if c = 'I' then
        if "nfinity".data.isPrefixOf rest then .ok (.num "Infinity", rest.drop 7, pos + 8)
        else .error ⟨"Expecting value", pos⟩
      else if c = '-' ∧ "Infinity".data.isPrefixOf rest then
        .ok (.num "-Infinity", rest.drop 8, pos + 9)
      else if c = '-' ∨ ('0' ≤ c ∧ c ≤ '9') then
        pNum (c :: rest) pos
      else
        .error ⟨"Expecting value", pos⟩

/-- Decode the elements of a non-empty JSON array (after `[`); `acc` holds
already-decoded elements in reverse. -/
def pArrLoop : Nat → List Char → Nat → List JVal → Except JErr (JVal × List Char × Nat)
  | 0, _, pos, _ => .error ⟨"Expecting value", pos⟩
  | fuel + 1, s, pos, acc =>
    match pVal fuel s pos with
    | .error e => .error e
    | .ok (v, r, p) =>
      let (r1, p1) := skipWs r p
      match r1 with
      | d :: r2 =>
        if d = ']' then .ok (.arr (v :: acc).reverse, r2, p1 + 1)
        else if d = ',' then
          let (r3, p3) := skipWs r2 (p1 + 1)
          pArrLoop fuel r3 p3 (v :: acc)
        else .error ⟨"Expecting \x27,\x27 delimiter", p1⟩
      | [] => .error ⟨"Expecting \x27,\x27 delimiter", p1⟩

/-- Decode the members of a non-empty JSON object (after `\x7b`); `acc` holds
already-decoded members in insertion order, duplicates replaced in place. -/
def pObjLoop : Nat → List Char → Nat → List (String × JVal) → Except JErr (JVal × List Char × Nat)
  | 0, _, pos, _ => .error ⟨"Expecting value", pos⟩
  | fuel + 1, s, pos, acc =>
    match s with
    | [] => .error ⟨"Expecting property name enclosed in double quotes", pos⟩
    | c :: rest =>
      if c = '"' then
        match pStr pos rest (pos + 1) [] with
        | .error e => .error e
        | .ok (key, r, p) =>
          let (r1, p1) := skipWs r p
          match r1 with
          | [] => .error ⟨"Expecting \x27:\x27 delimiter", p1⟩
          | d :: r2 =>
            if d = ':' then
              let (r3, p3) := skipWs r2 (p1 + 1)
              match pVal fuel r3 p3 with
              | .error e => .error e
              | .ok (v, r4, p4) =>
                let acc2 := objInsert key v acc
                let (r5, p5) := skipWs r4 p4
                match r5 with
                | [] => .error ⟨"Expecting \x27,\x27 delimiter", p5⟩
                | d2 :: r6 =>
                  if d2 = Char.ofNat 125 then .ok (.obj acc2, r6, p5 + 1)
                  else if d2 = ',' then
                    let (r7, p7) := skipWs r6 (p5 + 1)
                    pObjLoop fuel r7 p7 acc2
                  else .error ⟨"Expecting \x27,\x27 delimiter", p5⟩
            else .error ⟨"Expecting \x27:\x27 delimiter", p1⟩
      else .error ⟨"Expecting property name enclosed in double quotes", pos⟩

end

/-- Fuel amply covering the call depth of the decoder on `s`. -/
def fuelFor (s : String) : Nat := 2 * s.data.length + 8

/-- The model of `json.loads`: decode one value, allowing surrounding
whitespace, and reject trailing content. -/
def jparse (s : String) : Except JErr JVal :=
  let (r0, p0) := skipWs s.data 0
  match pVal (fuelFor s) r0 p0 with
  | .error e => .error e
  | .ok (v, r1, p1) =>
    let (r2, p2) := skipWs r1 p1
    match r2 with
    | [] => .ok v
    | _ => .error ⟨"Extra data", p2⟩

/-- Render `str(e)` of a `JSONDecodeError` raised on document `doc`. -/
def fmtJErr (doc : String) (e : JErr) : String :=
  let pre := doc.data.take e.pos
  let line := pre.count '\n' + 1
  let col := (pre.reverse.takeWhile (fun c => c ≠ '\n')).length + 1
  e.msg ++ ": line " ++ toString line ++ " column " ++ toString col ++
    " (char " ++ toString e.pos ++ ")"

/-- True when the number lexeme decodes to a Python `int` (no fraction,
exponent or named constant). -/
def numIsInt (lex : String) : Bool :=
  lex ≠ "" && lex.data.all (fun c => c = '-' || ('0' ≤ c && c ≤ '9'))

/-- Digits to the natural number they denote. -/
def digitsToNat : List Char → Nat → Nat
  | [], acc => acc
  | c :: rest, acc => digitsToNat rest (acc * 10 + (c.toNat - 48))

/-- Python `str(int(lex))` for an integer lexeme (canonicalizes `-0`). -/
def intLexStr (lex : String) : String :=
  match lex.data with
  | c :: rest =>
    if c = '-' then
      let n := digitsToNat rest 0
      if n = 0 then "0" else "-" ++ toString n
    else toString (digitsToNat lex.data 0)
  | [] => lex

mutual

/-- Python `repr` of a decoded JSON value, as used by `str` on containers.
Float rendering and quote selection inside string reprs are approximated by
the source lexeme and plain single quotes; no theorem takes this branch. -/
def pyRepr : JVal → String
  | .null => "None"
  | .bool true => "True"
  | .bool false => "False"
  | .num lex => if numIsInt lex then intLexStr lex else lex
  | .str s => "\x27" ++ s ++ "\x27"
  | .arr xs => "[" ++ String.intercalate ", " (pyReprList xs) ++ "]"
  | .obj kvs => "\x7b" ++ String.intercalate ", " (pyReprEntries kvs) ++ "\x7d"

/-- Reprs of the elements of a list. -/
def pyReprList : List JVal → List String
  | [] => []
  | x :: rest => pyRepr x :: pyReprList rest

/-- Reprs of the members of a dict. -/
def pyReprEntries : List (String × JVal) → List String
  | [] => []
  | (k, v) :: rest => ("\x27" ++ k ++ "\x27: " ++ pyRepr v) :: pyReprEntries rest

end

/-- Python `str` of a decoded JSON value (used when the handler interpolates
a non-string into an f-string). -/
def pyToStr (v : JVal) : String :=
  match v with
  | .str s => s
  | other => pyRepr other

/-- The error-message extraction of both handlers on an upstream error body:
`json.loads(err_body).get("error", \x7b\x7d).get("message", err_body)` with
every raised exception falling back to the raw body. -/
def extractMsg (ebody : String) : String :=
  match jparse ebody with
  | .error _ => ebody
  | .ok v =>
    match v with
    | .obj kvs =>
      match jlookup "error" kvs with
      | none => ebody
      | some (.obj e2) =>
        match jlookup "message" e2 with
        | some mv => pyToStr mv
        | none => ebody
      | some _ => ebody
    | _ => ebody

/-- Python exceptions that the envelope navigation can raise; the payload is
`str(e)`. -/
inductive PyExc where
  | keyError (s : String)
  | indexError (s : String)
  | typeError (s : String)
  | attrError (s : String)
deriving DecidableEq

/-- Message carried by the exception. -/
def PyExc.str : PyExc → String
  | .keyError s => s
  | .indexError s => s
  | .typeError s => s
  | .attrError s => s

/-- True when the exception is caught by the handler clause
`except (json.JSONDecodeError, KeyError, IndexError)`. -/
def PyExc.isParseCaught : PyExc → Bool
  | .keyError _ => true
  | .indexError _ => true
  | _ => false

/-- Python type name of a decoded JSON value. -/
def pyTypeName : JVal → String
  | .null => "NoneType"
  | .bool _ => "bool"
  | .num lex => if numIsInt lex then "int" else "float"
  | .str _ => "str"
  | .arr _ => "list"
  | .obj _ => "dict"

/-- Python `v[k]` for a string key on a decoded JSON value. -/
def pySubscriptKey (v : JVal) (k : String) : Except PyExc JVal :=
  match v with
  | .obj kvs =>
    match jlookup k kvs with
    | some x => .ok x
    | none => .error (.keyError ("\x27" ++ k ++ "\x27"))
  | .arr _ => .error (.typeError "list indices must be integers or slices, not str")
  | .str _ => .error (.typeError "string indices must be integers")
  | other => .error (.typeError ("\x27" ++ pyTypeName other ++ "\x27 object is not subscriptable"))

/-- Python `v[i]` for a nonnegative integer index on a decoded JSON value. -/
def pySubscriptIdx (v : JVal) (i : Nat) : Except PyExc JVal :=
  match v with
  | .arr xs =>
    match xs[i]? with
    | some x => .ok x
    | none => .error (.indexError "list index out of range")
  | .str s =>
    match s.data[i]? with
    | some c => .ok (.str ⟨[c]⟩)
    | none => .error (.indexError "string index out of range")
  | .obj _ => .error (.keyError (toString i))
  | other => .error (.typeError ("\x27" ++ pyTypeName other ++ "\x27 object is not subscriptable"))

/-- The envelope navigation of both handlers:
`result["candidates"][0]["content"]["parts"][0]["text"]`, followed by the
`.replace` attribute access that requires the result to be a string. -/
def extractText (v : JVal) : Except PyExc String := do
  let c ← pySubscriptKey v "candidates"
  let c0 ← pySubscriptIdx c 0
  let ct ← pySubscriptKey c0 "content"
  let ps ← pySubscriptKey ct "parts"
  let p0 ← pySubscriptIdx ps 0
  let tx ← pySubscriptKey p0 "text"
  match tx with
  | .str t => pure t
  | other =>
    .error (.attrError ("\x27" ++ pyTypeName other ++ "\x27 object has no attribute \x27replace\x27"))

/-- Outcome of `urllib.request.urlopen` on the outbound request: a 2xx
response with its body, a raised `HTTPError` with status and body, or a
raised `URLError` with its reason. -/
inductive UpResp where
  | ok (body : String)
  | httpErr (code : Nat) (body : String)
  | netErr (reason : String)

/-- The JSON body sent upstream; `temperature` keeps its source lexeme. -/
structure GeminiPayload where
  mime_type : String
  data : String
  text : String
  temperature : String
  maxOutputTokens : Nat
deriving DecidableEq

/-- One outbound call: the model id and credential that form the URL, the
socket timeout and the JSON payload. -/
structure OutboundCall where
  model : String
  key : String
  timeout : Nat
  payload : GeminiPayload
deriving DecidableEq

/-- The URL the call is sent to. -/
def OutboundCall.url (c : OutboundCall) : String :=
  "https://generativelanguage.googleapis.com/v1beta/models/" ++ c.model ++
    ":generateContent?key=" ++ c.key

/-- What one handler invocation produces: HTTP status, JSON response body,
and the outbound call it performed, if any. -/
structure RelayOut where
  status : Nat
  body : JVal
  sent : Option OutboundCall

/-- Number of outbound network calls performed. -/
def RelayOut.calls (o : RelayOut) : Nat :=
  match o.sent with
  | some _ => 1
  | none => 0

/-- An error response body. -/
def errBody (m : String) : JVal := .obj [("error", .str m)]

/-- A success response body. -/
def rowsBody (v : JVal) : JVal := .obj [("rows", v)]

/-- The fixed extraction prompt (identical text in both source files). -/
def PROMPT : String :=
  "You are a data extraction assistant. Extract ALL product entries from this " ++
  "Quality Control Pre-Dispatched Product Report image.\n\n" ++
  "For EACH product row in the table extract:\n" ++
  "- variety: product name + weight (e.g. \"Rolled Oats 800gm\")\n" ++
  "- batch_code\n" ++
  "- mfg_date\n" ++
  "- expiry_date\n" ++
  "- mrp (number only)\n" ++
  "- defects_status (Yes or No)\n" ++
  "- total_dispatch_ctn (number)\n" ++
  "- party_name (if visible)\n\n" ++
  "Return ONLY a raw JSON array. No markdown, no backticks, no extra text. Example:\n" ++
  "[\x7b\"variety\":\"Rolled Oats 800gm\",\"batch_code\":\"AK19K26R800D\",\"mfg_date\":\"26-11-2025\"," ++
  "\"expiry_date\":\"25-11-2026\",\"mrp\":\"405\",\"defects_status\":\"No\",\"total_dispatch_ctn\":\"5\"," ++
  "\"party_name\":\"Dautal Trading\"\x7d]\n\n" ++
  "Use empty string \"\" for any field not visible."

/-- The per-handler constants: model id, token limit, timeout and the two
missing-input messages. -/
structure RelayConfig where
  model : String
  maxTokens : Nat
  timeout : Nat
  missingKeyMsg : String
  missingImageMsg : String

/-- Constants of the Flask handler in src/app.py. -/
def appCfg : RelayConfig :=
  { model := "gemini-2.5-flash-preview-04-17", maxTokens := 4096, timeout := 120,
    missingKeyMsg := "Gemini API key not configured. Set GEMINI_API_KEY environment variable on Render.",
    missingImageMsg := "No image data received" }

/-- Constants of the http.server handler in src/server.py. -/
def serverCfg : RelayConfig :=
  { model := "gemini-2.5-flash", maxTokens := 2048, timeout := 60,
    missingKeyMsg := "Missing apiKey", missingImageMsg := "Missing imageB64" }

/-- Processing of a 2xx upstream response body, shared verbatim by both
handlers: decode the envelope, navigate to the text, normalize it, decode
the rows and apply the row-shape policy; each failure maps to the handler
clause that catches the corresponding Python exception. -/
def handleOk (call : OutboundCall) (body : String) : RelayOut :=
  match jparse body with
  | .error e =>
    ⟨500, errBody ("Failed to parse Gemini response: " ++ fmtJErr body e), some call⟩
  | .ok v =>
    match extractText v with
    | .error exc =>
      if exc.isParseCaught then
        ⟨500, errBody ("Failed to parse Gemini response: " ++ exc.str), some call⟩
      else
        ⟨500, errBody exc.str, some call⟩
    | .ok t =>
      match jparse (cleanText t) with
      | .error e =>
        ⟨500, errBody ("Failed to parse Gemini response: " ++ fmtJErr (cleanText t) e), some call⟩
      | .ok rows => ⟨200, rowsBody (wrapRows rows), some call⟩

/-- The outbound call built from the validated request fields. -/
def mkCall (cfg : RelayConfig) (api_key image_b64 mime_type : String) : OutboundCall :=
  { model := cfg.model, key := api_key, timeout := cfg.timeout,
    payload := { mime_type := mime_type, data := image_b64, text := PROMPT,
                 temperature := "0.1", maxOutputTokens := cfg.maxTokens } }

/-- The handler body shared by both files, after the request fields have been
read out of the decoded POST body: validate, build the outbound call, and
map the upstream outcome to the response. -/
def relayCore (cfg : RelayConfig) (api_key image_b64 mime_type : String) (up : UpResp) : RelayOut :=
  if api_key = "" then ⟨400, errBody cfg.missingKeyMsg, none⟩
  else if image_b64 = "" then ⟨400, errBody cfg.missingImageMsg, none⟩
  else
    let call : OutboundCall := mkCall cfg api_key image_b64 mime_type
    match up with
    | .ok body => handleOk call body
    | .httpErr code ebody =>
      ⟨code, errBody ("Gemini API error: " ++ extractMsg ebody), some call⟩
    | .netErr reason =>
      ⟨502, errBody ("Could not reach Gemini API: " ++ reason), some call⟩

/-- The fields of the decoded request body; `mimeType := none` models a body
that omits the field. -/
structure ReqPayload where
  apiKey : String
  imageB64 : String
  mimeType : Option String

/-- Key resolution of src/app.py line 50:
`os.environ.get("GEMINI_API_KEY") or payload.get("apiKey", "")`. -/
def pyOrKey (env : Option String) (bodyKey : String) : String :=
  match env with
  | none => bodyKey
  | some v => if v = "" then bodyKey else v

/-- The `/api/gemini` handler of src/app.py on a decoded request body
(`env` is the `GEMINI_API_KEY` environment variable). -/
def appRelay (env : Option String) (p : ReqPayload) (up : UpResp) : RelayOut :=
  relayCore appCfg (pyOrKey env p.apiKey) p.imageB64 (p.mimeType.getD "image/jpeg") up

/-- The `/api/gemini` handler of src/server.py on a decoded request body.
The environment parameter is listed to state claims about it: the source
never reads it. -/
def serverRelay (_env : Option String) (p : ReqPayload) (up : UpResp) : RelayOut :=
  relayCore serverCfg p.apiKey p.imageB64 (p.mimeType.getD "image/jpeg") up

/-- Restriction satisfied by every real `urlopen` outcome: `HTTPError` is
raised only for non-success statuses. -/
def honestUp : UpResp → Prop
  | .httpErr c _ => c ≠ 200
  | _ => True

/-- The chain the spec describes on an upstream error body: the value at
`error.message` when the body decodes to an object whose `error` member is an
object carrying `message`. -/
def specErrMessagePath (ebody : String) : Option JVal :=
  match jparse ebody with
  | .ok (.obj kvs) =>
    match jlookup "error" kvs with
    | some (.obj evs) => jlookup "message" evs
    | _ => none
  | _ => none

/-- Unfolding `removeAllAux` while characters are being skipped. -/
theorem removeAllAux_skip (pat : List Char) :
    ∀ (l : List Char) (s : Nat), removeAllAux pat s l = removeAllAux pat 0 (l.drop s) := by
  intro l
  induction l with
  | nil => intro s; cases s <;> rfl
  | cons c rest ih =>
    intro s
    cases s with
    | zero => rw [List.drop_zero]
    | succ t =>
      rw [show removeAllAux pat (t + 1) (c :: rest) = removeAllAux pat t rest from rfl,
        ih t, List.drop_succ_cons]

/-- `removeAll` when the pattern does not match at the head. -/
theorem removeAll_neg (pat : List Char) (c : Char) (rest : List Char)
    (h : pat.isPrefixOf (c :: rest) = false) :
    removeAll pat (c :: rest) = c :: removeAll pat rest := by
  unfold removeAll
  rw [show removeAllAux pat 0 (c :: rest) =
      if pat.isPrefixOf (c :: rest) ∧ pat ≠ [] then removeAllAux pat (pat.length - 1) rest
      else c :: removeAllAux pat 0 rest from rfl]
  simp [h]

/-- `removeAll` when the pattern matches at the head: the occurrence is
dropped and scanning resumes after it. -/
theorem removeAll_pos (pat : List Char) (c : Char) (rest : List Char)
    (h1 : pat.isPrefixOf (c :: rest) = true) (h2 : pat ≠ []) :
    removeAll pat (c :: rest) = removeAll pat ((c :: rest).drop pat.length) := by
  obtain ⟨k, hk⟩ : ∃ k, pat.length = k + 1 := by
    cases pat with
    | nil => exact absurd rfl h2
    | cons a t => exact ⟨t.length, rfl⟩
  unfold removeAll
  rw [show removeAllAux pat 0 (c :: rest) =
      if pat.isPrefixOf (c :: rest) ∧ pat ≠ [] then removeAllAux pat (pat.length - 1) rest
      else c :: removeAllAux pat 0 rest from rfl]
  rw [if_pos ⟨h1, h2⟩, removeAllAux_skip, hk]
  rw [show k + 1 - 1 = k from rfl, List.drop_succ_cons]

/-- A list with no occurrence of the pattern is left unchanged. -/
theorem removeAll_no_occurrence (pat : List Char) :
    ∀ (l : List Char), ¬ (pat <:+: l) → removeAll pat l = l := by
  intro l
  induction l with
  | nil => intro _; rfl
  | cons c rest ih =>
    intro h
    have hpre : pat.isPrefixOf (c :: rest) = false := by
      cases hb : pat.isPrefixOf (c :: rest) with
      | false => rfl
      | true =>
        exact absurd ((by simpa using hb : pat <+: c :: rest).isInfix) h
    rw [removeAll_neg pat c rest hpre, ih fun hi => h (List.infix_cons hi)]

/-- Peeling a character that cannot start an occurrence of `[b, b, b]`. -/
theorem not_infix_cons_of_ne (c b : Char) (v : List Char) (hcb : c ≠ b)
    (h : ¬ ([b, b, b] <:+: v)) : ¬ ([b, b, b] <:+: c :: v) := by
  intro hin
  rcases List.infix_cons_iff.mp hin with hp | hi
  · rcases List.cons_prefix_cons.mp hp with ⟨hb, _⟩
    exact hcb hb.symm
  · exact h hi

/-- Scanning removal of a run pattern `[b, b, b]` leaves no occurrence of it
behind: kept characters of a backtick run number at most two and stay
separated by non-backtick characters. -/
theorem bbb_not_infix_removeAll (b : Char) :
    ∀ (n : Nat) (l : List Char), l.length ≤ n →
      ¬ ([b, b, b] <:+: removeAll [b, b, b] l) := by
  intro n
  induction n with
  | zero =>
    intro l hl
    have : l = [] := List.eq_nil_of_length_eq_zero (Nat.le_zero.mp hl)
    subst this
    intro hin
    simp [removeAll, removeAllAux] at hin
  | succ n ih =>
    intro l hl
    match l with
    | [] => intro hin; simp [removeAll, removeAllAux] at hin
    | c :: rest =>
      by_cases hcb : c = b
      case neg =>
        have hpre : List.isPrefixOf [b, b, b] (c :: rest) = false := by
          have : (b == c) = false := by simpa using fun h => hcb h.symm
          simp [List.isPrefixOf, this]
        rw [removeAll_neg _ _ _ hpre]
        exact not_infix_cons_of_ne c b _ hcb
          (ih rest (by simpa using Nat.le_of_succ_le_succ hl))
      case pos =>
        subst hcb
        match rest with
        | [] =>
          have hpre : List.isPrefixOf [c, c, c] [c] = false := by
            simp [List.isPrefixOf]
          rw [removeAll_neg _ _ _ hpre]
          intro hin
          have := hin.length_le
          simp [removeAll, removeAllAux] at this
        | d :: rest2 =>
          by_cases hdb : d = c
          case neg =>
            have hne : (c == d) = false := by simpa using fun h => hdb h.symm
            have hpre : List.isPrefixOf [c, c, c] (c :: d :: rest2) = false := by
              simp [List.isPrefixOf, hne]
            have hpre2 : List.isPrefixOf [c, c, c] (d :: rest2) = false := by
              simp [List.isPrefixOf, hne]
            rw [removeAll_neg _ _ _ hpre, removeAll_neg _ _ _ hpre2]
            intro hin
            rcases List.infix_cons_iff.mp hin with hp | hi
            · rcases List.cons_prefix_cons.mp hp with ⟨_, hp2⟩
              rcases List.cons_prefix_cons.mp hp2 with ⟨hbd, _⟩
              exact hdb hbd.symm
            · exact not_infix_cons_of_ne d c _ hdb
                (ih rest2 (by simp at hl; omega)) hi
          case pos =>
            subst hdb
            match rest2 with
            | [] =>
              have hpre : List.isPrefixOf [d, d, d] [d, d] = false := by
                simp [List.isPrefixOf]
              have hpre2 : List.isPrefixOf [d, d, d] [d] = false := by
                simp [List.isPrefixOf]
              rw [removeAll_neg _ _ _ hpre, removeAll_neg _ _ _ hpre2]
              intro hin
              have := hin.length_le
              simp [removeAll, removeAllAux] at this
            | e :: rest3 =>
              by_cases heb : e = d
              case pos =>
                subst heb
                have hpre : List.isPrefixOf [e, e, e] (e :: e :: e :: rest3) = true := by
                  simp [List.isPrefixOf]
                rw [removeAll_pos _ _ _ hpre (by simp)]
                rw [show List.drop (List.length [e, e, e]) (e :: e :: e :: rest3) = rest3 from rfl]
                exact ih rest3 (by simp at hl; omega)
              case neg =>
                have hne : (d == e) = false := by simpa using fun h => heb h.symm
                have hpre : List.isPrefixOf [d, d, d] (d :: d :: e :: rest3) = false := by
                  simp [List.isPrefixOf, hne]
                have hpre2 : List.isPrefixOf [d, d, d] (d :: e :: rest3) = false := by
                  simp [List.isPrefixOf, hne]
                have hpre3 : List.isPrefixOf [d, d, d] (e :: rest3) = false := by
                  simp [List.isPrefixOf, hne]
                rw [removeAll_neg _ _ _ hpre, removeAll_neg _ _ _ hpre2,
                  removeAll_neg _ _ _ hpre3]
                intro hin
                rcases List.infix_cons_iff.mp hin with hp | hi
                · rcases List.cons_prefix_cons.mp hp with ⟨_, hp2⟩
                  rcases List.cons_prefix_cons.mp hp2 with ⟨_, hp3⟩
                  rcases List.cons_prefix_cons.mp hp3 with ⟨hbe, _⟩
                  exact heb hbe.symm
                · rcases List.infix_cons_iff.mp hi with hp | hi2
                  · rcases List.cons_prefix_cons.mp hp with ⟨_, hp2⟩
                    rcases List.cons_prefix_cons.mp hp2 with ⟨hbe, _⟩
                    exact heb hbe.symm
                  · exact not_infix_cons_of_ne e d _ heb
                      (ih rest3 (by simp at hl; omega)) hi2

/-- The fence marker written as an explicit character run. -/
theorem fence_eq : fence = [btk, btk, btk] := by decide

/-- The output of the generic-fence removal pass contains no fence marker. -/
theorem fence_not_infix_removeAll (l : List Char) :
    ¬ (fence <:+: removeAll fence l) := by
  rw [fence_eq]
  exact bbb_not_infix_removeAll btk l.length l (Nat.le_refl _)

/-- Characters that cannot start the pattern pass through `removeAll`. -/
theorem removeAll_append_of_headNe (b : Char) (pat : List Char)
    (hhd : pat.head? = some b) :
    ∀ (l t : List Char), (∀ c ∈ l, c ≠ b) →
      removeAll pat (l ++ t) = l ++ removeAll pat t := by
  intro l
  induction l with
  | nil => intro t _; rfl
  | cons c rest ih =>
    intro t hne
    have hcb : c ≠ b := hne c (List.mem_cons_self ..)
    have hpre : pat.isPrefixOf (c :: (rest ++ t)) = false := by
      cases pat with
      | nil => simp at hhd
      | cons p ptail =>
        have hp : p = b := by simpa using hhd
        subst hp
        have hbc : (p == c) = false := by simpa using fun h => hcb h.symm
        simp [List.isPrefixOf, hbc]
    rw [List.cons_append, removeAll_neg _ _ _ hpre,
      ih t fun x hx => hne x (List.mem_cons_of_mem _ hx)]
    rfl

/-- The stripped list is an infix of the original. -/
theorem stripChars_prefix_dropWhile (l : List Char) :
    stripChars l <+: l.dropWhile isStripWs := by
  have h2 : (l.dropWhile isStripWs).reverse.dropWhile isStripWs <:+
      (l.dropWhile isStripWs).reverse := List.dropWhile_suffix _
  rw [show stripChars l = ((l.dropWhile isStripWs).reverse.dropWhile isStripWs).reverse
    from rfl, ← List.reverse_suffix]
  simpa using h2

/-- The stripped list is an infix of the original. -/
theorem stripChars_within (l : List Char) : stripChars l <:+: l :=
  ((stripChars_prefix_dropWhile l).isInfix).trans ((List.dropWhile_suffix _).isInfix)

/-- The head of a `dropWhile` result fails the predicate. -/
theorem dropWhile_head_false (p : Char → Bool) :
    ∀ (l : List Char) (d : Char) (m : List Char), l.dropWhile p = d :: m → p d = false := by
  intro l
  induction l with
  | nil => intro d m h; simp at h
  | cons a l2 ih =>
    intro d m h
    rw [List.dropWhile_cons] at h
    by_cases hpa : p a
    · rw [if_pos hpa] at h; exact ih d m h
    · rw [if_neg hpa] at h
      injection h with h1 _
      subst h1
      simpa using hpa

/-- A prefix of a `dropWhile` result is its own `dropWhile` fixed point. -/
theorem dropWhile_eq_self_of_prefix (p : Char → Bool) (l x : List Char)
    (h : x <+: l.dropWhile p) : x.dropWhile p = x := by
  cases x with
  | nil => rfl
  | cons c x2 =>
    cases hm : l.dropWhile p with
    | nil =>
      rw [hm] at h
      exact absurd (List.eq_nil_of_prefix_nil h) (by simp)
    | cons d m2 =>
      rw [hm] at h
      rcases List.cons_prefix_cons.mp h with ⟨hcd, _⟩
      have hd := dropWhile_head_false p l d m2 hm
      rw [List.dropWhile_cons, hcd, hd]
      simp

/-- Stripping is idempotent. -/
theorem stripChars_idem (l : List Char) : stripChars (stripChars l) = stripChars l := by
  have s1 : (stripChars l).dropWhile isStripWs = stripChars l :=
    dropWhile_eq_self_of_prefix isStripWs l (stripChars l) (stripChars_prefix_dropWhile l)
  have s2 : (stripChars l).reverse = ((l.dropWhile isStripWs).reverse).dropWhile isStripWs := by
    simp [stripChars]
  rw [show stripChars (stripChars l) =
    (((stripChars l).dropWhile isStripWs).reverse.dropWhile isStripWs).reverse from rfl]
  rw [s1, s2, List.dropWhile_idempotent, ← s2, List.reverse_reverse]

/-- An infix of a fence-free list is fence free. -/
theorem fence_free_of_within (v w : List Char) (hw : w <:+: v)
    (hv : ¬ (fence <:+: v)) : ¬ (fence <:+: w) :=
  fun h => hv (h.trans hw)

/-- A fence-free list is also free of the JSON fence marker. -/
theorem fenceJson_free_of_fence_free (w : List Char) (hv : ¬ (fence <:+: w)) :
    ¬ (fenceJson <:+: w) := by
  intro h
  exact hv ((show fence <+: fenceJson by decide).isInfix.trans h)

/-- Normalization is idempotent. -/
theorem cleanText_idem (s : String) : cleanText (cleanText s) = cleanText s := by
  have hv : ¬ (fence <:+: removeAll fence (removeAll fenceJson s.data)) :=
    fence_not_infix_removeAll (removeAll fenceJson s.data)
  have hw : ¬ (fence <:+: stripChars (removeAll fence (removeAll fenceJson s.data))) :=
    fence_free_of_within _ _ (stripChars_within _) hv
  have hj : ¬ (fenceJson <:+: stripChars (removeAll fence (removeAll fenceJson s.data))) :=
    fenceJson_free_of_fence_free _ hw
  show (⟨stripChars (removeAll fence (removeAll fenceJson
      (stripChars (removeAll fence (removeAll fenceJson s.data)))))⟩ : String) = _
  rw [removeAll_no_occurrence _ _ hj, removeAll_no_occurrence _ _ hw, stripChars_idem]
  rfl

/-- A list is a `isPrefixOf` witness of itself extended by anything. -/
theorem isPrefixOf_append_self : ∀ (l t : List Char), l.isPrefixOf (l ++ t) = true := by
  intro l
  induction l with
  | nil => intro t; simp [List.isPrefixOf]
  | cons a p ih => intro t; simp [List.isPrefixOf]

/-- Boolean form of a failed prefix test. -/
theorem isPrefixOf_false_of_not (l t : List Char) (h : ¬ (l <+: t)) :
    l.isPrefixOf t = false := by
  cases hb : l.isPrefixOf t with
  | false => rfl
  | true => exact absurd (by simpa using hb) h

/-- A pattern starting with `b` cannot match a list free of `b`. -/
theorem isPrefixOf_cons_false (b : Char) (tail l : List Char)
    (hl : ∀ c ∈ l, c ≠ b) : (b :: tail).isPrefixOf l = false := by
  cases l with
  | nil => rfl
  | cons x xs =>
    have : (b == x) = false := by
      simpa using fun h => (hl x (List.mem_cons_self ..)) h.symm
    simp [List.isPrefixOf, this]

/-- A leading occurrence of the pattern is dropped. -/
theorem removeAll_append_self (pat t : List Char) (h2 : pat ≠ []) :
    removeAll pat (pat ++ t) = removeAll pat t := by
  cases pat with
  | nil => exact absurd rfl h2
  | cons a p =>
    have h1 : (a :: p).isPrefixOf (a :: (p ++ t)) = true := by
      simp
    rw [show (a :: p) ++ t = a :: (p ++ t) from rfl, removeAll_pos _ _ _ h1 h2]
    rw [show List.length (a :: p) = p.length + 1 from rfl, List.drop_succ_cons,
      List.drop_left]

/-- A list free of the pattern head character passes through unchanged. -/
theorem removeAll_of_headNe (b : Char) (pat : List Char) (hhd : pat.head? = some b)
    (l : List Char) (hl : ∀ c ∈ l, c ≠ b) : removeAll pat l = l := by
  have h := removeAll_append_of_headNe b pat hhd l [] hl
  have h0 : removeAll pat [] = [] := rfl
  simpa [h0] using h

/-- The characters of a concatenation avoid `b` when both halves do. -/
theorem append_avoid (b : Char) (l t : List Char) (hl : ∀ c ∈ l, c ≠ b)
    (ht : ∀ c ∈ t, c ≠ b) : ∀ c ∈ l ++ t, c ≠ b := by
  intro c hc
  rcases List.mem_append.mp hc with h | h
  · exact hl c h
  · exact ht c h

/-- Normalizing a backtick-free text only trims whitespace; in particular a
fence marker inserted anywhere between two backtick-free halves is removed,
provided the right half does not begin with the four letters that would turn
the inserted marker into a JSON-flavored one. -/
theorem cleanText_insert_fence (a b : String)
    (ha : ∀ c ∈ a.data, c ≠ btk) (hb : ∀ c ∈ b.data, c ≠ btk)
    (hj : ¬ ("json".data <+: b.data)) :
    cleanText (a ++ "```" ++ b) = ⟨stripChars (a.data ++ b.data)⟩ ∧
    cleanText (a ++ b) = ⟨stripChars (a.data ++ b.data)⟩ := by
  have hfjHead : fenceJson.head? = some btk := by decide
  have hfHead : fence.head? = some btk := by decide
  constructor
  · have hdata : (a ++ "```" ++ b).data = a.data ++ (fence ++ b.data) := by
      simp [fence, List.append_assoc]
    have step1 : removeAll fenceJson ((a ++ "```" ++ b)).data
        = a.data ++ (fence ++ b.data) := by
      rw [hdata, removeAll_append_of_headNe btk fenceJson hfjHead a.data _ ha]
      congr 1
      have e3 : fence ++ b.data = btk :: btk :: btk :: b.data := by
        simp [fence]
        rfl
      rw [e3]
      have hp1 : fenceJson.isPrefixOf (btk :: btk :: btk :: b.data) = false := by
        rw [show fenceJson = btk :: btk :: btk :: 'j' :: 's' :: 'o' :: 'n' :: [] by decide]
        have : List.isPrefixOf ['j', 's', 'o', 'n'] b.data = false :=
          isPrefixOf_false_of_not _ _ (by
            intro h
            exact hj (by simpa using h))
        simp [List.isPrefixOf, this]
      have hp2 : fenceJson.isPrefixOf (btk :: btk :: b.data) = false := by
        rw [show fenceJson = btk :: btk :: btk :: 'j' :: 's' :: 'o' :: 'n' :: [] by decide]
        have : List.isPrefixOf (btk :: 'j' :: 's' :: 'o' :: 'n' :: []) b.data = false :=
          isPrefixOf_cons_false btk _ b.data hb
        simp [List.isPrefixOf, this]
      have hp3 : fenceJson.isPrefixOf (btk :: b.data) = false := by
        rw [show fenceJson = btk :: btk :: btk :: 'j' :: 's' :: 'o' :: 'n' :: [] by decide]
        have : List.isPrefixOf (btk :: btk :: 'j' :: 's' :: 'o' :: 'n' :: []) b.data = false :=
          isPrefixOf_cons_false btk _ b.data hb
        simp [List.isPrefixOf, this]
      rw [removeAll_neg _ _ _ hp1, removeAll_neg _ _ _ hp2, removeAll_neg _ _ _ hp3,
        removeAll_of_headNe btk fenceJson hfjHead b.data hb]
    have step2 : removeAll fence (a.data ++ (fence ++ b.data)) = a.data ++ b.data := by
      rw [removeAll_append_of_headNe btk fence hfHead a.data _ ha,
        removeAll_append_self fence b.data (by decide),
        removeAll_of_headNe btk fence hfHead b.data hb]
    show (⟨stripChars (removeAll fence (removeAll fenceJson (a ++ "```" ++ b).data))⟩ : String) = _
    rw [step1, step2]
  · have hall : ∀ c ∈ (a ++ b).data, c ≠ btk := by
      rw [String.data_append]
      exact append_avoid btk a.data b.data ha hb
    show (⟨stripChars (removeAll fence (removeAll fenceJson (a ++ b).data))⟩ : String) = _
    rw [removeAll_of_headNe btk fenceJson hfjHead _ hall,
      removeAll_of_headNe btk fence hfHead _ hall, String.data_append]

/-- Every branch of the 2xx processing records the one outbound call. -/
theorem handleOk_sent (call : OutboundCall) (body : String) :
    (handleOk call body).sent = some call := by
  unfold handleOk
  split
  · rfl
  · split
    · split <;> rfl
    · split <;> rfl

/-- The row-shape policy always produces an array. -/
theorem wrapRows_isArr (v : JVal) : ∃ xs, wrapRows v = .arr xs := by
  cases v <;> exact ⟨_, rfl⟩

/-- The 2xx processing yields either a 200 rows response or a 500 error
response. -/
theorem handleOk_shape (call : OutboundCall) (body : String) :
    ((handleOk call body).status = 200 ∧
      ∃ xs, (handleOk call body).body = rowsBody (.arr xs)) ∨
    ((handleOk call body).status = 500 ∧
      ∃ m, (handleOk call body).body = errBody m) := by
  unfold handleOk
  split
  · exact Or.inr ⟨rfl, _, rfl⟩
  · split
    · split
      · exact Or.inr ⟨rfl, _, rfl⟩
      · exact Or.inr ⟨rfl, _, rfl⟩
    · split
      · exact Or.inr ⟨rfl, _, rfl⟩
      · next rows _ =>
        obtain ⟨xs, hxs⟩ := wrapRows_isArr rows
        exact Or.inl ⟨rfl, xs, by rw [show rowsBody (wrapRows rows) = rowsBody (.arr xs) from by rw [hxs]]⟩

/-- With both inputs present the core performs the outbound call. -/
theorem relayCore_sent (cfg : RelayConfig) (k img mime : String) (up : UpResp)
    (hk : k ≠ "") (himg : img ≠ "") :
    (relayCore cfg k img mime up).sent = some (mkCall cfg k img mime) := by
  unfold relayCore
  rw [if_neg hk, if_neg himg]
  cases up with
  | ok body => exact handleOk_sent _ _
  | httpErr code ebody => rfl
  | netErr reason => rfl

/-- With an input missing the core fails fast: status 400, an error body,
and no outbound call. -/
theorem relayCore_missing (cfg : RelayConfig) (k img mime : String) (up : UpResp)
    (h : k = "" ∨ img = "") :
    (relayCore cfg k img mime up).status = 400 ∧
    (relayCore cfg k img mime up).sent = none ∧
    ∃ m, (relayCore cfg k img mime up).body = errBody m := by
  unfold relayCore
  by_cases hk : k = ""
  · rw [if_pos hk]; exact ⟨rfl, rfl, _, rfl⟩
  · have himg : img = "" := h.resolve_left hk
    rw [if_neg hk, if_pos himg]
    exact ⟨rfl, rfl, _, rfl⟩

/-- No invocation performs more than one outbound call. -/
theorem calls_le_one (o : RelayOut) : o.calls ≤ 1 := by
  unfold RelayOut.calls
  split <;> simp

/-- The call count is determined by the recorded call. -/
theorem calls_of_sent (o : RelayOut) :
    (o.sent = none → o.calls = 0) ∧ (∀ c, o.sent = some c → o.calls = 1) := by
  unfold RelayOut.calls
  constructor
  · intro h; rw [h]
  · intro c h; rw [h]

/-- The core either succeeds with a 200 rows response or fails with a
non-200 error response. -/
theorem relayCore_outcome (cfg : RelayConfig) (k img mime : String) (up : UpResp)
    (hup : honestUp up) :
    ((relayCore cfg k img mime up).status = 200 ∧
      ∃ xs, (relayCore cfg k img mime up).body = rowsBody (.arr xs)) ∨
    ((relayCore cfg k img mime up).status ≠ 200 ∧
      ∃ m, (relayCore cfg k img mime up).body = errBody m) := by
  by_cases hk : k = ""
  · right
    obtain ⟨h1, _, h3⟩ := relayCore_missing cfg k img mime up (Or.inl hk)
    exact ⟨by rw [h1]; decide, h3⟩
  · by_cases himg : img = ""
    · right
      obtain ⟨h1, _, h3⟩ := relayCore_missing cfg k img mime up (Or.inr himg)
      exact ⟨by rw [h1]; decide, h3⟩
    · unfold relayCore
      rw [if_neg hk, if_neg himg]
      cases up with
      | ok body =>
        rcases handleOk_shape (mkCall cfg k img mime) body with ⟨h1, xs, h2⟩ | ⟨h1, m, h2⟩
        · exact Or.inl ⟨h1, xs, h2⟩
        · exact Or.inr ⟨by rw [h1]; decide, m, h2⟩
      | httpErr code ebody =>
        exact Or.inr ⟨hup, _, rfl⟩
      | netErr reason =>
        exact Or.inr ⟨show (502 : Nat) ≠ 200 by decide, _, rfl⟩

/-- The decoded message chain rewrites `extractMsg` to the formatted message. -/
theorem extractMsg_chain (ebody : String) (kvs evs : List (String × JVal)) (m : JVal)
    (h1 : jparse ebody = .ok (.obj kvs)) (h2 : jlookup "error" kvs = some (.obj evs))
    (h3 : jlookup "message" evs = some m) : extractMsg ebody = pyToStr m := by
  unfold extractMsg
  rw [h1]
  dsimp only
  rw [h2]
  dsimp only
  rw [h3]

/-- A body that fails to decode is passed through raw. -/
theorem extractMsg_raw_of_parse_error (ebody : String) (e : JErr)
    (h : jparse ebody = .error e) : extractMsg ebody = ebody := by
  unfold extractMsg
  rw [h]

/-- A body that decodes but has no `error.message` chain is passed through
raw. -/
theorem extractMsg_raw_of_no_chain (ebody : String) (v : JVal)
    (h1 : jparse ebody = .ok v) (h2 : specErrMessagePath ebody = none) :
    extractMsg ebody = ebody := by
  unfold extractMsg
  unfold specErrMessagePath at h2
  rw [h1] at h2 ⊢
  cases v with
  | obj kvs =>
    dsimp only at h2 ⊢
    cases he : jlookup "error" kvs with
    | none => rfl
    | some w =>
      rw [he] at h2
      cases w with
      | obj evs =>
        dsimp only at h2 ⊢
        cases hm : jlookup "message" evs with
        | none => rfl
        | some mv =>
          rw [hm] at h2
          exact Option.noConfusion h2
      | null => rfl
      | bool b => rfl
      | num lx => rfl
      | str t => rfl
      | arr xs => rfl
  | null => rfl
  | bool b => rfl
  | num lx => rfl
  | str t => rfl
  | arr xs => rfl

/-- The 2xx branch on an undecodable response body. -/
theorem handleOk_parse_error (call : OutboundCall) (body : String) (e : JErr)
    (h : jparse body = .error e) :
    handleOk call body =
      ⟨500, errBody ("Failed to parse Gemini response: " ++ fmtJErr body e), some call⟩ := by
  unfold handleOk
  rw [h]

/-- The 2xx branch when the envelope navigation raises. -/
theorem handleOk_nav_error (call : OutboundCall) (body : String) (v : JVal) (exc : PyExc)
    (h1 : jparse body = .ok v) (h2 : extractText v = .error exc) :
    (handleOk call body).status = 500 := by
  unfold handleOk
  rw [h1]
  dsimp only
  rw [h2]
  dsimp only
  split <;> rfl

/-- The 2xx branch when the normalized text fails to decode. -/
theorem handleOk_text_parse_error (call : OutboundCall) (body : String) (v : JVal)
    (t : String) (e2 : JErr) (h1 : jparse body = .ok v) (h2 : extractText v = .ok t)
    (h3 : jparse (cleanText t) = .error e2) :
    handleOk call body =
      ⟨500, errBody ("Failed to parse Gemini response: " ++ fmtJErr (cleanText t) e2),
        some call⟩ := by
  unfold handleOk
  rw [h1]
  dsimp only
  rw [h2]
  dsimp only
  rw [h3]

/-- C1 counterexample: with the configuration value present (`ENVKEY`) and a
request-supplied credential (`BODYKEY`), the server.py handler puts the
request-supplied credential in the outbound URL, not the configuration
value. -/
theorem c1_counterexample :
    ((serverRelay (some "ENVKEY") ⟨"BODYKEY", "IMG", none⟩ (.netErr "down")).sent.map
      OutboundCall.key) = some "BODYKEY" ∧ ("BODYKEY" : String) ≠ "ENVKEY" :=
  ⟨rfl, by decide⟩

/-- C1 amended: in app.py the outbound credential is the configuration value
when it is set and non-empty, with the request-body credential as fallback;
in server.py the configuration value is ignored and the request-body
credential is always the one used. -/
theorem c1_key_resolution (env : Option String) (p : ReqPayload) (up : UpResp)
    (himg : p.imageB64 ≠ "") :
    (pyOrKey env p.apiKey ≠ "" →
      ((appRelay env p up).sent.map OutboundCall.key) = some (pyOrKey env p.apiKey)) ∧
    (p.apiKey ≠ "" →
      ((serverRelay env p up).sent.map OutboundCall.key) = some p.apiKey) ∧
    (∀ v, v ≠ "" → pyOrKey (some v) p.apiKey = v) ∧
    pyOrKey none p.apiKey = p.apiKey ∧
    pyOrKey (some "") p.apiKey = p.apiKey := by
  refine ⟨?_, ?_, ?_, rfl, rfl⟩
  · intro hk
    rw [show appRelay env p up
        = relayCore appCfg (pyOrKey env p.apiKey) p.imageB64 (p.mimeType.getD "image/jpeg") up
      from rfl, relayCore_sent _ _ _ _ _ hk himg]
    rfl
  · intro hk
    rw [show serverRelay env p up
        = relayCore serverCfg p.apiKey p.imageB64 (p.mimeType.getD "image/jpeg") up
      from rfl, relayCore_sent _ _ _ _ _ hk himg]
    rfl
  · intro v hv
    show (if v = "" then p.apiKey else v) = v
    rw [if_neg hv]

/-- C1 witness: with `GEMINI_API_KEY=ENV` set, app.py sends `ENV` even though
the request supplies `BODY`. -/
theorem c1_key_resolution_witness :
    ((appRelay (some "ENV") ⟨"BODY", "IMG", none⟩ (.netErr "down")).sent.map
      OutboundCall.key) = some "ENV" := by
  rw [(c1_key_resolution (some "ENV") ⟨"BODY", "IMG", none⟩ (.netErr "down")
    (by decide)).1 (by decide)]
  rfl

/-- C2 counterexample: a fence marker strictly inside the text is removed by
the normalization, not left unchanged. -/
theorem c2_counterexample :
    cleanText "a```b" = "ab" ∧ cleanText "a```b" ≠ "a```b" :=
  ⟨by decide, by decide⟩

/-- C2 amended: the normalization removes every occurrence of the fence
markers anywhere in the text — also strictly inside it — and then trims
surrounding whitespace; all characters not part of a removed marker are kept.
Formally: inserting a generic fence marker anywhere between two backtick-free
halves yields the same result as normalizing the halves alone, namely the
concatenation with only whitespace trimmed. -/
theorem c2_fence_removal (a b : String)
    (ha : ∀ c ∈ a.data, c ≠ btk) (hb : ∀ c ∈ b.data, c ≠ btk)
    (hj : ¬ ("json".data <+: b.data)) :
    cleanText (a ++ "```" ++ b) = ⟨stripChars (a.data ++ b.data)⟩ ∧
    cleanText (a ++ b) = ⟨stripChars (a.data ++ b.data)⟩ :=
  cleanText_insert_fence a b ha hb hj

/-- C2 witness: the fence between `x` and `y` is removed from the middle. -/
theorem c2_fence_removal_witness : cleanText ("x" ++ "```" ++ "y") = "xy" := by
  rw [(c2_fence_removal "x" "y" (by decide) (by decide) (by decide)).1]
  decide

/-- C3 counterexample: a parsed scalar (a bare JSON string) is not returned
unchanged — the relay wraps it in a one-element array. -/
theorem c3_counterexample :
    (appRelay none ⟨"k", "img", none⟩
      (.ok "\x7b\"candidates\": [\x7b\"content\": \x7b\"parts\": [\x7b\"text\": \"\\\"x\\\"\"\x7d]\x7d\x7d]\x7d")).status
      = 200 ∧
    (appRelay none ⟨"k", "img", none⟩
      (.ok "\x7b\"candidates\": [\x7b\"content\": \x7b\"parts\": [\x7b\"text\": \"\\\"x\\\"\"\x7d]\x7d\x7d]\x7d")).body
      = rowsBody (.arr [.str "x"]) ∧
    JVal.arr [.str "x"] ≠ .str "x" :=
  ⟨rfl, rfl, fun h => nomatch h⟩

/-- C3 amended: a parsed object is wrapped in a one-element array; a parsed
array is returned unchanged without validation of its elements; every other
parsed value — scalars included — is also wrapped in a one-element array. -/
theorem c3_row_shape :
    (∀ kvs, wrapRows (.obj kvs) = .arr [.obj kvs]) ∧
    (∀ xs, wrapRows (.arr xs) = .arr xs) ∧
    (∀ v, (∀ xs, v ≠ .arr xs) → wrapRows v = .arr [v]) := by
  refine ⟨fun kvs => rfl, fun xs => rfl, fun v hv => ?_⟩
  cases v with
  | arr xs => exact absurd rfl (hv xs)
  | null => rfl
  | bool b => rfl
  | num lx => rfl
  | str t => rfl
  | obj kvs => rfl

/-- C3 witness: `null` is not an array and is wrapped. -/
theorem c3_row_shape_witness : wrapRows .null = .arr [.null] :=
  c3_row_shape.2.2 .null (fun _ h => nomatch h)

/-- C4: with the image missing, or no credential resolvable (not configured
and not supplied), both handlers answer 400 with an error body and perform
no outbound call. -/
theorem c4_missing_input (env : Option String) (p : ReqPayload) (up : UpResp)
    (h : ((env = none ∨ env = some "") ∧ p.apiKey = "") ∨ p.imageB64 = "") :
    (appRelay env p up).status = 400 ∧ (appRelay env p up).sent = none ∧
    (appRelay env p up).calls = 0 ∧ (∃ m, (appRelay env p up).body = errBody m) ∧
    (serverRelay env p up).status = 400 ∧ (serverRelay env p up).sent = none ∧
    (serverRelay env p up).calls = 0 ∧ (∃ m, (serverRelay env p up).body = errBody m) := by
  have happ : pyOrKey env p.apiKey = "" ∨ p.imageB64 = "" := by
    rcases h with ⟨henv, hkey⟩ | himg
    · left
      rcases henv with h1 | h1 <;> rw [h1] <;> unfold pyOrKey <;> simp [hkey]
    · exact Or.inr himg
  have hsrv : p.apiKey = "" ∨ p.imageB64 = "" := by
    rcases h with ⟨_, hkey⟩ | himg
    · exact Or.inl hkey
    · exact Or.inr himg
  obtain ⟨a1, a2, a3⟩ := relayCore_missing appCfg (pyOrKey env p.apiKey) p.imageB64
    (p.mimeType.getD "image/jpeg") up happ
  obtain ⟨s1, s2, s3⟩ := relayCore_missing serverCfg p.apiKey p.imageB64
    (p.mimeType.getD "image/jpeg") up hsrv
  exact ⟨a1, a2, (calls_of_sent _).1 a2, a3, s1, s2, (calls_of_sent _).1 s2, s3⟩

/-- C4 witness: empty image, no env key, no body key. -/
theorem c4_missing_input_witness :
    (appRelay none ⟨"", "", none⟩ (.netErr "down")).status = 400 ∧
    (serverRelay none ⟨"", "", none⟩ (.netErr "down")).sent = none := by
  have h := c4_missing_input none ⟨"", "", none⟩ (.netErr "down") (Or.inr rfl)
  exact ⟨h.1, h.2.2.2.2.2.1⟩

/-- C5: on an upstream `HTTPError`, both handlers forward the upstream status
code and reply with `"Gemini API error: <message>"`, where the message is the
`error.message` string when the error body decodes to that shape, and the raw
body when the body fails to decode or decodes without that chain. -/
theorem c5_upstream_error (env : Option String) (p : ReqPayload) (code : Nat) (ebody : String)
    (hak : pyOrKey env p.apiKey ≠ "") (hsk : p.apiKey ≠ "") (himg : p.imageB64 ≠ "") :
    (appRelay env p (.httpErr code ebody)).status = code ∧
    (serverRelay env p (.httpErr code ebody)).status = code ∧
    (appRelay env p (.httpErr code ebody)).body =
      errBody ("Gemini API error: " ++ extractMsg ebody) ∧
    (serverRelay env p (.httpErr code ebody)).body =
      errBody ("Gemini API error: " ++ extractMsg ebody) ∧
    (∀ kvs evs m, jparse ebody = .ok (.obj kvs) → jlookup "error" kvs = some (.obj evs) →
      jlookup "message" evs = some (.str m) → extractMsg ebody = m) ∧
    (∀ e, jparse ebody = .error e → extractMsg ebody = ebody) ∧
    (∀ v, jparse ebody = .ok v → specErrMessagePath ebody = none →
      extractMsg ebody = ebody) := by
  have ha : appRelay env p (.httpErr code ebody) =
      ⟨code, errBody ("Gemini API error: " ++ extractMsg ebody),
        some (mkCall appCfg (pyOrKey env p.apiKey) p.imageB64 (p.mimeType.getD "image/jpeg"))⟩ := by
    unfold appRelay relayCore
    rw [if_neg hak, if_neg himg]
  have hs : serverRelay env p (.httpErr code ebody) =
      ⟨code, errBody ("Gemini API error: " ++ extractMsg ebody),
        some (mkCall serverCfg p.apiKey p.imageB64 (p.mimeType.getD "image/jpeg"))⟩ := by
    unfold serverRelay relayCore
    rw [if_neg hsk, if_neg himg]
  refine ⟨by rw [ha], by rw [hs], by rw [ha], by rw [hs], ?_, ?_, ?_⟩
  · intro kvs evs m h1 h2 h3
    exact (extractMsg_chain ebody kvs evs (.str m) h1 h2 h3)
  · exact extractMsg_raw_of_parse_error ebody
  · exact extractMsg_raw_of_no_chain ebody

/-- C5 witness: the spec's worked example, HTTP 429 with a structured body. -/
theorem c5_upstream_error_witness :
    (appRelay none ⟨"k", "img", none⟩
      (.httpErr 429 "\x7b\"error\":\x7b\"message\":\"rate limited\"\x7d\x7d")).status = 429 ∧
    (appRelay none ⟨"k", "img", none⟩
      (.httpErr 429 "\x7b\"error\":\x7b\"message\":\"rate limited\"\x7d\x7d")).body =
      errBody "Gemini API error: rate limited" := by
  obtain ⟨h1, _, h3, _⟩ := c5_upstream_error none ⟨"k", "img", none⟩ 429
    "\x7b\"error\":\x7b\"message\":\"rate limited\"\x7d\x7d" (by decide) (by decide) (by decide)
  exact ⟨h1, by rw [h3]; rfl⟩

set_option maxRecDepth 4096 in
/-- C6 counterexample: on upstream prose `hello`, the relay answers 500 but
the error message reports only the decode position — the raw offending text
does not appear in it. -/
theorem c6_counterexample :
    (appRelay none ⟨"k", "img", none⟩
      (.ok "\x7b\"candidates\": [\x7b\"content\": \x7b\"parts\": [\x7b\"text\": \"hello\"\x7d]\x7d\x7d]\x7d")).status
      = 500 ∧
    (appRelay none ⟨"k", "img", none⟩
      (.ok "\x7b\"candidates\": [\x7b\"content\": \x7b\"parts\": [\x7b\"text\": \"hello\"\x7d]\x7d\x7d]\x7d")).body
      = errBody "Failed to parse Gemini response: Expecting value: line 1 column 1 (char 0)" ∧
    ¬ ("hello".data <:+:
      "Failed to parse Gemini response: Expecting value: line 1 column 1 (char 0)".data) :=
  ⟨by rfl, by rfl, by decide⟩

/-- C6 amended: unusable content after a successful transport — an envelope
without the text field, or normalized text that fails to decode — yields a
500 response in both handlers; in the decode-failure case the message is
`"Failed to parse Gemini response: <decode-error description>"`, which
carries the failure position, not the raw offending text. -/
theorem c6_unusable_content (env : Option String) (p : ReqPayload) (body : String)
    (hak : pyOrKey env p.apiKey ≠ "") (hsk : p.apiKey ≠ "") (himg : p.imageB64 ≠ "") :
    (∀ e, jparse body = .error e →
      (appRelay env p (.ok body)).status = 500 ∧
      (serverRelay env p (.ok body)).status = 500) ∧
    (∀ v exc, jparse body = .ok v → extractText v = .error exc →
      (appRelay env p (.ok body)).status = 500 ∧
      (serverRelay env p (.ok body)).status = 500) ∧
    (∀ v t e2, jparse body = .ok v → extractText v = .ok t →
      jparse (cleanText t) = .error e2 →
      (appRelay env p (.ok body)).status = 500 ∧
      (appRelay env p (.ok body)).body =
        errBody ("Failed to parse Gemini response: " ++ fmtJErr (cleanText t) e2) ∧
      (serverRelay env p (.ok body)).status = 500 ∧
      (serverRelay env p (.ok body)).body =
        errBody ("Failed to parse Gemini response: " ++ fmtJErr (cleanText t) e2)) := by
  have ha : appRelay env p (.ok body) =
      handleOk (mkCall appCfg (pyOrKey env p.apiKey) p.imageB64 (p.mimeType.getD "image/jpeg"))
        body := by
    unfold appRelay relayCore
    rw [if_neg hak, if_neg himg]
  have hs : serverRelay env p (.ok body) =
      handleOk (mkCall serverCfg p.apiKey p.imageB64 (p.mimeType.getD "image/jpeg")) body := by
    unfold serverRelay relayCore
    rw [if_neg hsk, if_neg himg]
  refine ⟨?_, ?_, ?_⟩
  · intro e he
    rw [ha, hs, handleOk_parse_error _ _ _ he, handleOk_parse_error _ _ _ he]
    exact ⟨rfl, rfl⟩
  · intro v exc h1 h2
    rw [ha, hs]
    exact ⟨handleOk_nav_error _ _ _ _ h1 h2, handleOk_nav_error _ _ _ _ h1 h2⟩
  · intro v t e2 h1 h2 h3
    rw [ha, hs, handleOk_text_parse_error _ _ _ _ _ h1 h2 h3,
      handleOk_text_parse_error _ _ _ _ _ h1 h2 h3]
    exact ⟨rfl, rfl, rfl, rfl⟩

/-- C6 witness: a 2xx transport whose body is not JSON instantiates the
unusable-content case. -/
theorem c6_unusable_content_witness :
    (serverRelay none ⟨"k", "img", none⟩ (.ok "?")).status = 500 := by
  have h := (c6_unusable_content none ⟨"k", "img", none⟩ "?"
    (by decide) (by decide) (by decide)).1 ⟨"Expecting value", 0⟩ (by rfl)
  exact h.2

/-- C7: normalization is idempotent on every string; moreover a backtick-free,
already-trimmed text is returned exactly when wrapped in JSON fences, and is
left unchanged when already clean. -/
theorem c7_normalize_idem :
    (∀ s : String, cleanText (cleanText s) = cleanText s) ∧
    (∀ body : String, (∀ c ∈ body.data, c ≠ btk) → stripChars body.data = body.data →
      cleanText ("```json" ++ body ++ "```") = body ∧ cleanText body = body) := by
  refine ⟨cleanText_idem, fun body hb hs => ⟨?_, ?_⟩⟩
  · have hdata : ("```json" ++ body ++ "```").data = fenceJson ++ (body.data ++ fence) := by
      simp [fenceJson, fence, List.append_assoc]
    have h1 : removeAll fenceJson ("```json" ++ body ++ "```").data = body.data ++ fence := by
      rw [hdata, removeAll_append_self fenceJson _ (by decide),
        removeAll_append_of_headNe btk fenceJson (by decide) body.data fence hb,
        removeAll_no_occurrence fenceJson fence (by decide)]
    have h2 : removeAll fence (body.data ++ fence) = body.data := by
      have hff : removeAll fence fence = [] := by
        have h := removeAll_append_self fence [] (by decide)
        rw [List.append_nil] at h
        exact h
      rw [removeAll_append_of_headNe btk fence (by decide) body.data fence hb, hff,
        List.append_nil]
    show (⟨stripChars (removeAll fence
      (removeAll fenceJson ("```json" ++ body ++ "```").data))⟩ : String) = body
    rw [h1, h2, hs]
  · show (⟨stripChars (removeAll fence (removeAll fenceJson body.data))⟩ : String) = body
    rw [removeAll_of_headNe btk fenceJson (by decide) body.data hb,
      removeAll_of_headNe btk fence (by decide) body.data hb, hs]

/-- C7 witness: a serialized array survives the fenced round trip and is a
normalization fixed point. -/
theorem c7_normalize_idem_witness :
    cleanText ("```json" ++ "[1, 2]" ++ "```") = "[1, 2]" ∧
    cleanText "[1, 2]" = "[1, 2]" :=
  c7_normalize_idem.2 "[1, 2]" (by decide) (by decide)

/-- C8: every invocation performs at most one outbound call, exactly one when
both preconditions hold, and — since `HTTPError` carries a non-success
status — each invocation ends in a full 200 rows response or a non-200 error
response; nothing is retried and no partial result exists. -/
theorem c8_single_call (env : Option String) (p : ReqPayload) (up : UpResp)
    (hup : honestUp up) :
    (appRelay env p up).calls ≤ 1 ∧ (serverRelay env p up).calls ≤ 1 ∧
    (pyOrKey env p.apiKey ≠ "" → p.imageB64 ≠ "" → (appRelay env p up).calls = 1) ∧
    (p.apiKey ≠ "" → p.imageB64 ≠ "" → (serverRelay env p up).calls = 1) ∧
    (((appRelay env p up).status = 200 ∧
        ∃ xs, (appRelay env p up).body = rowsBody (.arr xs)) ∨
      ((appRelay env p up).status ≠ 200 ∧
        ∃ m, (appRelay env p up).body = errBody m)) ∧
    (((serverRelay env p up).status = 200 ∧
        ∃ xs, (serverRelay env p up).body = rowsBody (.arr xs)) ∨
      ((serverRelay env p up).status ≠ 200 ∧
        ∃ m, (serverRelay env p up).body = errBody m)) := by
  refine ⟨calls_le_one _, calls_le_one _, ?_, ?_,
    relayCore_outcome appCfg (pyOrKey env p.apiKey) p.imageB64
      (p.mimeType.getD "image/jpeg") up hup,
    relayCore_outcome serverCfg p.apiKey p.imageB64
      (p.mimeType.getD "image/jpeg") up hup⟩
  · intro hk himg
    exact (calls_of_sent _).2 _ (relayCore_sent appCfg _ _ _ up hk himg)
  · intro hk himg
    exact (calls_of_sent _).2 _ (relayCore_sent serverCfg _ _ _ up hk himg)

/-- C8 witness: a valid request against an unreachable upstream performs
exactly one call. -/
theorem c8_single_call_witness :
    (appRelay none ⟨"k", "img", none⟩ (.netErr "down")).calls = 1 :=
  (c8_single_call none ⟨"k", "img", none⟩ (.netErr "down") trivial).2.2.1
    (by decide) (by decide)

/-- C9: every 200 response carries an array under `rows`; any parsed value
that is not an array — scalars included — is wrapped into a one-element
array. -/
theorem c9_rows_always_array (env : Option String) (p : ReqPayload) (up : UpResp)
    (hup : honestUp up) :
    ((appRelay env p up).status = 200 →
      ∃ xs, (appRelay env p up).body = rowsBody (.arr xs)) ∧
    ((serverRelay env p up).status = 200 →
      ∃ xs, (serverRelay env p up).body = rowsBody (.arr xs)) ∧
    (∀ v, (∀ xs, v ≠ .arr xs) → wrapRows v = .arr [v]) := by
  refine ⟨?_, ?_, ?_⟩
  · intro h200
    rcases relayCore_outcome appCfg (pyOrKey env p.apiKey) p.imageB64
      (p.mimeType.getD "image/jpeg") up hup with ⟨_, hx⟩ | ⟨hne, _⟩
    · exact hx
    · exact absurd h200 hne
  · intro h200
    rcases relayCore_outcome serverCfg p.apiKey p.imageB64
      (p.mimeType.getD "image/jpeg") up hup with ⟨_, hx⟩ | ⟨hne, _⟩
    · exact hx
    · exact absurd h200 hne
  · intro v hv
    cases v with
    | arr xs => exact absurd rfl (hv xs)
    | null => rfl
    | bool b => rfl
    | num lx => rfl
    | str t => rfl
    | obj kvs => rfl

/-- C9 witness: a bare number in the model text comes back as a one-element
rows array. -/
theorem c9_rows_always_array_witness :
    ∃ xs, (appRelay none ⟨"k", "img", none⟩
      (.ok "\x7b\"candidates\": [\x7b\"content\": \x7b\"parts\": [\x7b\"text\": \"7\"\x7d]\x7d\x7d]\x7d")).body
      = rowsBody (.arr xs) :=
  (c9_rows_always_array none ⟨"k", "img", none⟩
    (.ok "\x7b\"candidates\": [\x7b\"content\": \x7b\"parts\": [\x7b\"text\": \"7\"\x7d]\x7d\x7d]\x7d")
    trivial).1 rfl

/-- C10: omitting `mimeType` behaves exactly like supplying `image/jpeg`;
when the call goes out, the inlined image is tagged `image/jpeg`; a missing
MIME type is never an error. -/
theorem c10_mime_default (env : Option String) (key img : String) (up : UpResp) :
    appRelay env ⟨key, img, none⟩ up = appRelay env ⟨key, img, some "image/jpeg"⟩ up ∧
    serverRelay env ⟨key, img, none⟩ up = serverRelay env ⟨key, img, some "image/jpeg"⟩ up ∧
    (pyOrKey env key ≠ "" → img ≠ "" →
      ((appRelay env ⟨key, img, none⟩ up).sent.map fun c => c.payload.mime_type) =
        some "image/jpeg") ∧
    (key ≠ "" → img ≠ "" →
      ((serverRelay env ⟨key, img, none⟩ up).sent.map fun c => c.payload.mime_type) =
        some "image/jpeg") := by
  refine ⟨rfl, rfl, ?_, ?_⟩
  · intro hk himg
    rw [show appRelay env ⟨key, img, none⟩ up
        = relayCore appCfg (pyOrKey env key) img "image/jpeg" up from rfl,
      relayCore_sent _ _ _ _ _ hk himg]
    rfl
  · intro hk himg
    rw [show serverRelay env ⟨key, img, none⟩ up
        = relayCore serverCfg key img "image/jpeg" up from rfl,
      relayCore_sent _ _ _ _ _ hk himg]
    rfl

/-- C10 witness: a request without `mimeType` goes out tagged `image/jpeg`. -/
theorem c10_mime_default_witness :
    ((appRelay none ⟨"k", "img", none⟩ (.netErr "down")).sent.map
      fun c => c.payload.mime_type) = some "image/jpeg" :=
  (c10_mime_default none "k" "img" (.netErr "down")).2.2.1 (by decide) (by decide)
